import Mathlib

/-!
Verification of the queue-to-match state machine of the BotRanked repository.

The JavaScript source is shallowly embedded: JS `Set`s (insertion-ordered,
duplicate-free) become duplicate-free `List`s, JS `Map`s become association
lists, timestamps become `Nat` milliseconds, and each interaction handler
becomes a pure function from its inputs and the relevant registries to the
updated registries plus the reply sent to the actor.
-/

namespace BotRanked

/-- Participant identifiers (Discord snowflakes) are modelled as naturals. -/
abbrev UserId := Nat

/-! ## JS collection primitives -/

/-- JS `Set.prototype.add`: appends the element if it is not already present. -/
def jsSetAdd (s : List UserId) (x : UserId) : List UserId :=
  if x ∈ s then s else s ++ [x]

/-- JS `Set.prototype.delete`: removes the element. -/
def jsSetDelete (s : List UserId) (x : UserId) : List UserId :=
  s.filter (fun y => y ≠ x)

/-- JS `new Set(list)`: deduplicates preserving first-occurrence order. -/
def jsSetOfList (l : List UserId) : List UserId :=
  l.foldl jsSetAdd []

/-! ## Constants (src/queue.js lines 10-26) -/

def QUEUE_SIZE : Nat := 6
def VOTE_THRESHOLD : Nat := 4
def POINTS_WIN : Int := 30
def POINTS_LOSS : Int := 30
def MAPS : List String :=
  ["Temple-M", "Old-School", "Neden-3", "Tunnel", "Colloseum", "Ziggurant", "Jungle"]
def BUTTON_COOLDOWN : Nat := 3000
def DODGE_BAN_DURATION : Nat := 60 * 60 * 1000
def DODGE_TIME_LIMIT : Nat := 5 * 60 * 1000
def COOLDOWN_TTL : Nat := 60 * 60 * 1000
def MATCH_TTL : Nat := 12 * 60 * 60 * 1000

/-! ## Match state (createGameChannelForSix, state object) -/

/-- The phase tag of a match state. -/
inductive Phase where
  | A1 | B1 | B2 | BAN_A | BAN_B | VOTE
deriving DecidableEq, Repr

/-- In-memory match state: the fields of the `state` object built in
`createGameChannelForSix` that the state machine reads or writes
(message handles are omitted; they are presentation-only). -/
structure MatchState where
  players : List UserId
  captainA : UserId
  captainB : UserId
  teamA : List UserId
  teamB : List UserId
  remaining : List UserId
  phase : Phase
  matchId : Option Nat
  teamAId : Option Nat
  teamBId : Option Nat
  availableMaps : List String
  bannedMaps : List String
  selectedMap : Option String
  finalized : Bool
  voteStartTime : Option Nat
  createdAt : Nat
deriving DecidableEq, Repr

/-- The other four participants: `playerIds.filter(id => id !== captainA && id !== captainB)`. -/
def draftOthers (playerIds : List UserId) (capA capB : UserId) : List UserId :=
  playerIds.filter (fun id => id ≠ capA ∧ id ≠ capB)

/-- The in-memory state installed by `createGameChannelForSix` once the two
captains are known (queue.js state literal). -/
def initState (playerIds : List UserId) (capA capB : UserId) (now : Nat) : MatchState :=
  { players := jsSetOfList playerIds
    captainA := capA
    captainB := capB
    teamA := [capA]
    teamB := [capB]
    remaining := jsSetOfList (draftOthers playerIds capA capB)
    phase := Phase.A1
    matchId := none
    teamAId := none
    teamBId := none
    availableMaps := MAPS
    bannedMaps := []
    selectedMap := none
    finalized := false
    voteStartTime := none
    createdAt := now }

/-! ## Draft pick handler (setupQueue, `pick:` branch) -/

/-- Reply sent to the actor by the pick branch. -/
inductive PickOutcome where
  | notYourTurnA
  | notYourTurnB
  | invalidTarget
  | accepted
deriving DecidableEq, Repr

/-- The state mutation of the `pick:` button branch: guard checks in source
order, then removal from `remaining` followed by the phase-indexed team
update (the `B2` branch auto-assigns the head of what is left of
`remaining` to team A and clears `remaining`). -/
def pickHandler (s : MatchState) (pickerId pickedId : UserId) : MatchState × PickOutcome :=
  if s.phase = Phase.A1 ∧ pickerId ≠ s.captainA then
    (s, PickOutcome.notYourTurnA)
  else if (s.phase = Phase.B1 ∨ s.phase = Phase.B2) ∧ pickerId ≠ s.captainB then
    (s, PickOutcome.notYourTurnB)
  else if pickedId ∉ s.remaining then
    (s, PickOutcome.invalidTarget)
  else
    let rem := jsSetDelete s.remaining pickedId
    if s.phase = Phase.A1 then
      ({ s with remaining := rem, teamA := jsSetAdd s.teamA pickedId, phase := Phase.B1 },
        PickOutcome.accepted)
    else if s.phase = Phase.B1 then
      ({ s with remaining := rem, teamB := jsSetAdd s.teamB pickedId, phase := Phase.B2 },
        PickOutcome.accepted)
    else if s.phase = Phase.B2 then
      let tA := match rem.head? with
        | some last => jsSetAdd s.teamA last
        | none => s.teamA
      ({ s with
          remaining := [],
          teamA := tA,
          teamB := jsSetAdd s.teamB pickedId,
          phase := Phase.BAN_A },
        PickOutcome.accepted)
    else
      ({ s with remaining := rem }, PickOutcome.accepted)

/-! ## Map ban handler (setupQueue, `ban:` branch) -/

/-- Reply sent to the actor by the ban branch. -/
inductive BanOutcome where
  | bansNotActive
  | notYourTurnA
  | notYourTurnB
  | invalidMap
  | accepted
deriving DecidableEq, Repr

/-- The state mutation of the `ban:` button branch.  `randIndex` stands for the
integer `Math.floor(Math.random() * state.availableMaps.length)` drawn after
the second ban; it is uniformly distributed on the index range of the
post-ban available list, and theorems carry the range bound as a hypothesis. -/
def banHandler (s : MatchState) (bannerId : UserId) (mapName : String)
    (randIndex : Nat) (now : Nat) : MatchState × BanOutcome :=
  if ¬(s.phase = Phase.BAN_A ∨ s.phase = Phase.BAN_B) then
    (s, BanOutcome.bansNotActive)
  else if s.phase = Phase.BAN_A ∧ bannerId ≠ s.captainA then
    (s, BanOutcome.notYourTurnA)
  else if s.phase = Phase.BAN_B ∧ bannerId ≠ s.captainB then
    (s, BanOutcome.notYourTurnB)
  else if mapName ∉ s.availableMaps then
    (s, BanOutcome.invalidMap)
  else
    let avail := s.availableMaps.filter (fun m => m ≠ mapName)
    let banned := s.bannedMaps ++ [mapName]
    if s.phase = Phase.BAN_A then
      ({ s with availableMaps := avail, bannedMaps := banned, phase := Phase.BAN_B },
        BanOutcome.accepted)
    else
      ({ s with
          availableMaps := avail,
          bannedMaps := banned,
          selectedMap := some (avail.getD randIndex ""),
          phase := Phase.VOTE,
          voteStartTime := some now },
        BanOutcome.accepted)

/-! ## Persisted store (models User, Match, Vote) -/

/-- A row of the `users` table (PlayerProfile). -/
structure Usr where
  discordId : UserId
  points : Int
  wins : Nat
  losses : Nat
deriving DecidableEq, Repr

/-- A row of the `matches` table. -/
structure MatchRec where
  id : Nat
  status : String
deriving DecidableEq, Repr

/-- A row of the `votes` table. -/
structure VoteRec where
  matchId : Nat
  voterDiscordId : UserId
  voteForTeamId : Nat
deriving DecidableEq, Repr

/-- The slice of the persisted store the finalize/vote paths touch. -/
structure Db where
  users : List Usr
  matchesTbl : List MatchRec
  votes : List VoteRec
deriving DecidableEq, Repr

/-- `Match.findByPk(mid)?.status`. -/
def matchStatus (tbl : List MatchRec) (mid : Nat) : Option String :=
  (tbl.find? (fun m => m.id = mid)).map (fun m => m.status)

/-- `Match.update({ status: "done" }, { where: { id: mid } })`. -/
def setMatchDone (tbl : List MatchRec) (mid : Nat) : List MatchRec :=
  tbl.map (fun m => if m.id = mid then { m with status := "done" } else m)

/-- The per-row effect of the two winner increments of `tryFinalize`:
`wins + 1` and `points + POINTS_WIN`. -/
def winUpdate (u : Usr) : Usr :=
  { u with wins := u.wins + 1, points := u.points + POINTS_WIN }

/-- The per-row effect of the two loser increments of `tryFinalize`:
`losses + 1` and `points - POINTS_LOSS`. -/
def lossUpdate (u : Usr) : Usr :=
  { u with losses := u.losses + 1, points := u.points - POINTS_LOSS }

/-- `User.increment({ wins: 1 })` then `User.increment({ points: POINTS_WIN })`
for one winner id (every row with that `discordId` is updated). -/
def applyWinner (users : List Usr) (wid : UserId) : List Usr :=
  users.map (fun u => if u.discordId = wid then winUpdate u else u)

/-- `User.increment({ losses: 1 })` then `User.increment({ points: -POINTS_LOSS })`
for one loser id. -/
def applyLoser (users : List Usr) (lid : UserId) : List Usr :=
  users.map (fun u => if u.discordId = lid then lossUpdate u else u)

/-- The winner loop of `tryFinalize`. -/
def applyWinners (users : List Usr) (ws : List UserId) : List Usr :=
  ws.foldl applyWinner users

/-- The loser loop of `tryFinalize`. -/
def applyLosers (users : List Usr) (ls : List UserId) : List Usr :=
  ls.foldl applyLoser users

/-- Vote tally for one team id, as computed inside `tryFinalize` and
`updateVoteMessage`: votes of the match whose `voteForTeamId` equals the
state's team record id. -/
def voteCount (votes : List VoteRec) (mid : Nat) (teamId : Option Nat) : Nat :=
  ((votes.filter (fun v => v.matchId = mid)).filter
    (fun v => teamId = some v.voteForTeamId)).length

/-! ## Finalization (tryFinalize) -/

/-- Result of `tryFinalize`: the updated in-memory state, the updated store,
and the returned boolean. -/
structure FinalizeResult where
  state : MatchState
  db : Db
  finalized : Bool
deriving DecidableEq, Repr

/-- Shallow embedding of `tryFinalize` (queue.js): no-op without a persisted
match id; fast-path return when the in-memory flag is set; tally the votes
and declare team A the winner when its count reaches `VOTE_THRESHOLD`, else
team B when its count does; skip all stat deltas when the persisted status
is already "done"; otherwise mark the match done and apply the win/loss
increments.  Message sending and caching are presentation-only and omitted. -/
def tryFinalize (s : MatchState) (db : Db) : FinalizeResult :=
  match s.matchId with
  | none => ⟨s, db, false⟩
  | some mid =>
    if s.finalized then ⟨s, db, true⟩
    else
      let countA := voteCount db.votes mid s.teamAId
      let countB := voteCount db.votes mid s.teamBId
      if countA ≥ VOTE_THRESHOLD ∨ countB ≥ VOTE_THRESHOLD then
        let winners := if countA ≥ VOTE_THRESHOLD then s.teamA else s.teamB
        let losers := if countA ≥ VOTE_THRESHOLD then s.teamB else s.teamA
        if matchStatus db.matchesTbl mid = some "done" then
          ⟨{ s with finalized := true }, db, true⟩
        else
          ⟨{ s with finalized := true },
            { db with
                users := applyLosers (applyWinners db.users winners) losers,
                matchesTbl := setMatchDone db.matchesTbl mid },
            true⟩
      else ⟨s, db, false⟩

/-! ## Vote write (setupQueue, `vote:` branch) -/

/-- `Vote.findOne({ where: { matchId, voterDiscordId } })` followed by either
`existing.update({ voteForTeamId })` or `Vote.create(...)`: update the first
matching record in place, else append a fresh record. -/
def voteUpsert (votes : List VoteRec) (mid : Nat) (voter : UserId) (team : Nat) :
    List VoteRec :=
  match votes with
  | [] => [⟨mid, voter, team⟩]
  | v :: vs =>
    if v.matchId = mid ∧ v.voterDiscordId = voter then
      { v with voteForTeamId := team } :: vs
    else
      v :: voteUpsert vs mid voter team

/-! ## Captain selection (createGameChannelForSix) -/

/-- One step of a stable descending insertion: models the placement of an
earlier array element into the sorted suffix under the comparator
`(a, b) => b.points - a.points` (ES2019 `Array.prototype.sort` is stable). -/
def insertDescByPoints (u : Usr) : List Usr → List Usr
  | [] => [u]
  | v :: vs =>
    if u.points ≥ v.points then u :: v :: vs else v :: insertDescByPoints u vs

/-- `users.sort((a, b) => b.points - a.points)`: stable sort by descending
points. -/
def sortByPointsDesc (users : List Usr) : List Usr :=
  users.foldr insertDescByPoints []

/-- Captain selection of `createGameChannelForSix`: the head of the sorted
rows becomes captain B, the second element captain A; fewer than two rows
make the source throw a `TypeError` (`sortedByPoints[1]` is `undefined`),
modelled as `none`. -/
def selectCaptains (users : List Usr) : Option (UserId × UserId) :=
  match sortByPointsDesc users with
  | b :: a :: _ => some (a.discordId, b.discordId)
  | _ => none

/-! ## Dodge bans and button cooldowns (module-level Maps) -/

/-- A `dodgeBans` entry: `{ timestamp, createdAt }` with `timestamp` the ban
expiry instant. -/
structure BanEntry where
  timestamp : Nat
  createdAt : Nat
deriving DecidableEq, Repr

/-- A `buttonCooldowns` entry: `{ timestamp, createdAt }`. -/
structure CooldownEntry where
  timestamp : Nat
  createdAt : Nat
deriving DecidableEq, Repr

/-- JS `Map.prototype.set`: overwrite in place when the key exists, else
append (insertion order preserved). -/
def jsMapSet {α : Type} (m : List (Nat × α)) (k : Nat) (v : α) : List (Nat × α) :=
  if (m.find? (fun p => p.1 = k)).isSome then
    m.map (fun p => if p.1 = k then (k, v) else p)
  else m ++ [(k, v)]

/-- JS `Map.prototype.delete`. -/
def jsMapDelete {α : Type} (m : List (Nat × α)) (k : Nat) : List (Nat × α) :=
  m.filter (fun p => p.1 ≠ k)

/-- JS `Map.prototype.get`. -/
def jsMapGet {α : Type} (m : List (Nat × α)) (k : Nat) : Option α :=
  (m.find? (fun p => p.1 = k)).map (fun p => p.2)

/-- `isUserDodgeBanned`: no entry means not banned; an entry whose expiry has
been reached (`Date.now() >= banData.timestamp`) is deleted and reports not
banned; otherwise banned.  Returns the flag and the updated `dodgeBans`. -/
def isUserDodgeBanned (bans : List (UserId × BanEntry)) (userId now : Nat) :
    Bool × List (UserId × BanEntry) :=
  match jsMapGet bans userId with
  | none => (false, bans)
  | some b =>
    if now ≥ b.timestamp then (false, jsMapDelete bans userId)
    else (true, bans)

/-- `getDodgeBanTimeLeft`: minutes left, rounded up
(`Math.ceil((timestamp - now) / 60000)`); `0` when absent or expired. -/
def getDodgeBanTimeLeft (bans : List (UserId × BanEntry)) (userId now : Nat) : Nat :=
  match jsMapGet bans userId with
  | none => 0
  | some b => if now ≥ b.timestamp then 0 else (b.timestamp - now + 59999) / 60000

/-! ## Queue join handler (setupQueue, `queue_join` branch) -/

/-- Reply sent to the actor by the join branch, in source guard order. -/
inductive JoinReply where
  | alreadyInQueue
  | alreadyInOtherQueue (channelName : String)
  | needRole
  | dodgeBanned (minutesLeft : Nat)
  | alreadyInGame
  | joined
deriving DecidableEq, Repr

/-- Result of a join attempt: the tier's queue, the dodge-ban map and the
reply. -/
structure JoinResult where
  q : List UserId
  bans : List (UserId × BanEntry)
  reply : JoinReply
deriving DecidableEq, Repr

/-- The `queue_join` branch of `setupQueue` (membership critical section):
guards in source order — already in this queue, already in another queue
(`isUserInOtherQueue` result passed in), tier role requirement, dodge ban,
active match — then `q.add(memberId)`.  `memberRoles` are the actor's role
names lower-cased, as compared by the source. -/
def joinHandler (q : List UserId) (otherQueue : Option String)
    (requiredRoles memberRoles : List String)
    (bans : List (UserId × BanEntry)) (inActiveMatch : Bool)
    (memberId now : Nat) : JoinResult :=
  if memberId ∈ q then ⟨q, bans, JoinReply.alreadyInQueue⟩
  else
    match otherQueue with
    | some name => ⟨q, bans, JoinReply.alreadyInOtherQueue name⟩
    | none =>
      if requiredRoles ≠ [] ∧ ¬(memberRoles.any (fun r => r ∈ requiredRoles)) then
        ⟨q, bans, JoinReply.needRole⟩
      else
        let res := isUserDodgeBanned bans memberId now
        if res.1 then
          ⟨q, res.2, JoinReply.dodgeBanned (getDodgeBanTimeLeft res.2 memberId now)⟩
        else if inActiveMatch then ⟨q, res.2, JoinReply.alreadyInGame⟩
        else ⟨jsSetAdd q memberId, res.2, JoinReply.joined⟩

/-! ## Forced forfeit (queue.js `/dodge` branch, lines 981-1031) -/

/-- Reply of the `/dodge` branch. -/
inductive DodgeOutcome where
  | notMatchChannel
  | notPlayer
  | beforeBansComplete
  | windowExpired
  | accepted
deriving DecidableEq, Repr

/-- The registries the `/dodge` branch reads and writes. -/
structure DodgeWorld where
  matchesMap : List (Nat × MatchState)
  dodgeBans : List (UserId × BanEntry)
  voteUpdateQueues : List Nat
  matchesTbl : List MatchRec
deriving DecidableEq, Repr

/-- `Match.update({ status: "cancelled" }, ...)`. -/
def setMatchCancelled (tbl : List MatchRec) (mid : Nat) : List MatchRec :=
  tbl.map (fun m => if m.id = mid then { m with status := "cancelled" } else m)

/-- The `/dodge` chat-command branch of the queue.js interaction handler
(lines 981-1031): guards — active match channel, actor is a participant,
vote phase started, inside the five-minute window — then install a one-hour
dodge ban, mark the persisted match cancelled, drop the match state and its
vote-throttle flag.  Participant notification and channel deletion are
presentation-only. -/
def dodgeBranch (w : DodgeWorld) (channelId : Nat) (userId now : Nat) :
    DodgeWorld × DodgeOutcome :=
  match jsMapGet w.matchesMap channelId with
  | none => (w, DodgeOutcome.notMatchChannel)
  | some s =>
    if userId ∉ s.players then (w, DodgeOutcome.notPlayer)
    else
      match s.voteStartTime with
      | none => (w, DodgeOutcome.beforeBansComplete)
      | some vst =>
        if now - vst > DODGE_TIME_LIMIT then (w, DodgeOutcome.windowExpired)
        else
          ({ matchesMap := jsMapDelete w.matchesMap channelId
             dodgeBans := jsMapSet w.dodgeBans userId
               ⟨now + DODGE_BAN_DURATION, now⟩
             voteUpdateQueues := match s.matchId with
               | some mid => w.voteUpdateQueues.filter (fun x => x ≠ mid)
               | none => w.voteUpdateQueues
             matchesTbl := match s.matchId with
               | some mid => setMatchCancelled w.matchesTbl mid
               | none => w.matchesTbl },
            DodgeOutcome.accepted)

/-- An inbound interaction, classified the way the handler tests it. -/
inductive Interaction where
  | button (customId : String)
  | slash (commandName : String)
deriving DecidableEq, Repr

/-- `interaction.isButton()`. -/
def Interaction.isButton : Interaction → Bool
  | Interaction.button _ => true
  | Interaction.slash _ => false

/-- The `/dodge` path of the queue.js interaction listener: the
`if (!interaction.isButton()) return;` early return (line 734) followed —
after the button branches, which never reach the dodge logic — by the
`isChatInputCommand() && commandName === 'dodge'` branch (line 981).
Button interactions are dispatched to the button branches modelled
separately and leave the dodge state untouched on this path. -/
def dodgeDispatch (i : Interaction) (w : DodgeWorld) (channelId : Nat)
    (userId now : Nat) : DodgeWorld × Option DodgeOutcome :=
  if ¬i.isButton then (w, none)
  else
    match i with
    | Interaction.slash cmd =>
      if cmd = "dodge" then
        let r := dodgeBranch w channelId userId now
        (r.1, some r.2)
      else (w, none)
    | Interaction.button _ => (w, none)

/-! ## Cleanup sweeper (utils/memory-cleanup.js) -/

/-- Sweep interval constants of memory-cleanup.js (identical values to the
queue.js constants). -/
def CLEANUP_INTERVAL : Nat := 30 * 60 * 1000

/-- Result of one run of the periodic sweep. -/
structure SweepResult where
  cooldowns : List (UserId × CooldownEntry)
  bans : List (UserId × BanEntry)
  matchesMap : List (Nat × MatchState)
  voteUpdateQueues : List Nat
deriving DecidableEq, Repr

/-- One run of the `startMemoryCleanup` interval body: evict cooldown entries
with `now - createdAt > COOLDOWN_TTL`, dodge-ban entries with
`now - createdAt > DODGE_BAN_DURATION + 1000`, and match states with
`now - createdAt > MATCH_TTL` together with the evicted matches'
vote-throttle flags. -/
def cleanupSweep (now : Nat) (cooldowns : List (UserId × CooldownEntry))
    (bans : List (UserId × BanEntry)) (ms : List (Nat × MatchState))
    (vq : List Nat) : SweepResult :=
  let removed := ms.filter (fun p => now - p.2.createdAt > MATCH_TTL)
  { cooldowns := cooldowns.filter (fun p => ¬(now - p.2.createdAt > COOLDOWN_TTL))
    bans := bans.filter (fun p => ¬(now - p.2.createdAt > DODGE_BAN_DURATION + 1000))
    matchesMap := ms.filter (fun p => ¬(now - p.2.createdAt > MATCH_TTL))
    voteUpdateQueues :=
      vq.filter (fun mid => ¬(removed.any (fun p => p.2.matchId = some mid))) }

/-! ## Capacity-triggered drain and spawn (setupQueue + createGameChannelForSix) -/

/-- Outcome of the drain-and-spawn sequence inside the creation lock. -/
structure SpawnResult where
  queueAfter : List UserId
  drained : List UserId
  channelCreated : Bool
  installed : Option MatchState
deriving DecidableEq, Repr

/-- The drain-and-spawn sequence: after the under-lock re-check of
`q.size >= QUEUE_SIZE`, take the first six members, delete them from the
queue, create the match channel, then select captains from the persisted
rows of the drained players — `sortedByPoints[0]`/`[1]` throw when fewer
than two rows exist, which aborts `createGameChannelForSix` after the
channel was created and the queue was drained, before `matches.set`. -/
def drainAndSpawn (q : List UserId) (users : List Usr) (now : Nat) : SpawnResult :=
  if q.length ≥ QUEUE_SIZE then
    let players := q.take QUEUE_SIZE
    let qAfter := players.foldl jsSetDelete q
    let rows := users.filter (fun u => u.discordId ∈ players)
    match selectCaptains rows with
    | some (capA, capB) =>
      { queueAfter := qAfter
        drained := players
        channelCreated := true
        installed := some (initState players capA capB now) }
    | none =>
      { queueAfter := qAfter
        drained := players
        channelCreated := true
        installed := none }
  else
    { queueAfter := q, drained := [], channelCreated := false, installed := none }

/-! ## Draft size quotas and the draft invariant -/

/-- Number of players still to be picked in each phase of a well-formed
six-player draft. -/
def remainingQuota : Phase → Nat
  | Phase.A1 => 4
  | Phase.B1 => 3
  | Phase.B2 => 2
  | _ => 0

/-- The draft invariant of a six-player match state: teams and the
remaining pool partition the fixed participant set, the captains sit in
their teams, and the remaining pool has the size dictated by the phase. -/
structure Inv (s : MatchState) : Prop where
  cover : ∀ x ∈ s.players, x ∈ s.teamA ∨ x ∈ s.teamB ∨ x ∈ s.remaining
  subA : ∀ x ∈ s.teamA, x ∈ s.players
  subB : ∀ x ∈ s.teamB, x ∈ s.players
  subR : ∀ x ∈ s.remaining, x ∈ s.players
  disjAB : ∀ x ∈ s.teamA, x ∉ s.teamB
  disjAR : ∀ x ∈ s.teamA, x ∉ s.remaining
  disjBR : ∀ x ∈ s.teamB, x ∉ s.remaining
  ndP : s.players.Nodup
  ndA : s.teamA.Nodup
  ndB : s.teamB.Nodup
  ndR : s.remaining.Nodup
  capA_mem : s.captainA ∈ s.teamA
  capB_mem : s.captainB ∈ s.teamB
  playersLen : s.players.length = QUEUE_SIZE
  remLen : s.remaining.length = remainingQuota s.phase

/-- The vote records of one voter for one match, as selected by
`Vote.findOne({ where: { matchId, voterDiscordId } })`. -/
def votesFor (votes : List VoteRec) (mid : Nat) (voter : UserId) : List VoteRec :=
  votes.filter (fun v => v.matchId = mid ∧ v.voterDiscordId = voter)

/-! ## Concrete sample data for closed evaluations -/

/-- A vote-phase match state: players 1..6, captain A = 2 with team {2,3,4},
captain B = 1 with team {1,5,6}, persisted match id 1 and team record ids 10
and 20, vote phase entered at t = 1000. -/
def sampleVoteState : MatchState :=
  { players := [1, 2, 3, 4, 5, 6]
    captainA := 2
    captainB := 1
    teamA := [2, 3, 4]
    teamB := [1, 5, 6]
    remaining := []
    phase := Phase.VOTE
    matchId := some 1
    teamAId := some 10
    teamBId := some 20
    availableMaps := ["Temple-M", "Old-School", "Neden-3", "Tunnel", "Colloseum"]
    bannedMaps := ["Ziggurant", "Jungle"]
    selectedMap := some "Tunnel"
    finalized := false
    voteStartTime := some 1000
    createdAt := 0 }

/-- A store where match 1 is still in status draft and team A has gathered
four votes. -/
def sampleVoteDb : Db :=
  { users :=
      [⟨1, 1000, 0, 0⟩, ⟨2, 1100, 0, 0⟩, ⟨3, 900, 0, 0⟩,
        ⟨4, 1000, 0, 0⟩, ⟨5, 1000, 0, 0⟩, ⟨6, 1000, 0, 0⟩]
    matchesTbl := [⟨1, "draft"⟩]
    votes := [⟨1, 1, 10⟩, ⟨1, 2, 10⟩, ⟨1, 3, 10⟩, ⟨1, 4, 10⟩] }

/-- Registries holding the sample vote-phase match under channel id 500,
with its vote-throttle flag pending and its match row still in draft. -/
def sampleDodgeWorld : DodgeWorld :=
  { matchesMap := [(500, sampleVoteState)]
    dodgeBans := []
    voteUpdateQueues := [1]
    matchesTbl := [⟨1, "draft"⟩] }

/-! ## Basic lemmas on the JS collection primitives -/

theorem mem_jsSetAdd {s : List UserId} {x y : UserId} :
    x ∈ jsSetAdd s y ↔ x ∈ s ∨ x = y := by
  unfold jsSetAdd
  split
  · rename_i h
    constructor
    · exact Or.inl
    · rintro (hx | rfl)
      · exact hx
      · exact h
  · simp

theorem nodup_jsSetAdd {s : List UserId} (h : s.Nodup) (y : UserId) :
    (jsSetAdd s y).Nodup := by
  unfold jsSetAdd
  split
  · exact h
  · rename_i hy
    simpa [List.nodup_append] using ⟨h, fun hmem => hy hmem⟩

theorem mem_jsSetDelete {s : List UserId} {x y : UserId} :
    x ∈ jsSetDelete s y ↔ x ∈ s ∧ x ≠ y := by
  simp [jsSetDelete]

theorem nodup_jsSetDelete {s : List UserId} (h : s.Nodup) (y : UserId) :
    (jsSetDelete s y).Nodup :=
  h.filter _

theorem length_jsSetDelete {s : List UserId} {x : UserId}
    (hnd : s.Nodup) (hx : x ∈ s) :
    (jsSetDelete s x).length + 1 = s.length := by
  induction s with
  | nil => cases hx
  | cons a t ih =>
    by_cases hax : a = x
    · subst hax
      have hnotmem := (List.nodup_cons.mp hnd).1
      have hfa : t.filter (fun y => y ≠ a) = t := by
        apply List.filter_eq_self.mpr
        intro b hb
        simp only [ne_eq, decide_eq_true_eq]
        intro hba
        exact hnotmem (hba ▸ hb)
      simp [jsSetDelete, hfa]
      intro b hb hba
      exact hnotmem (hba ▸ hb)
    · have hxt : x ∈ t := by
        rcases List.mem_cons.mp hx with h | h
        · exact absurd h.symm hax
        · exact h
      have hnd' := (List.nodup_cons.mp hnd).2
      have hstep : jsSetDelete (a :: t) x = a :: jsSetDelete t x := by
        simp [jsSetDelete, hax]
      rw [hstep]
      simp only [List.length_cons]
      have := ih hnd' hxt
      omega

theorem mem_foldl_jsSetAdd {l acc : List UserId} {x : UserId} :
    x ∈ l.foldl jsSetAdd acc ↔ x ∈ acc ∨ x ∈ l := by
  induction l generalizing acc with
  | nil => simp
  | cons a t ih =>
    simp only [List.foldl_cons, ih, mem_jsSetAdd, List.mem_cons]
    tauto

theorem nodup_foldl_jsSetAdd {l acc : List UserId} (h : acc.Nodup) :
    (l.foldl jsSetAdd acc).Nodup := by
  induction l generalizing acc with
  | nil => exact h
  | cons a t ih => exact ih (nodup_jsSetAdd h a)

theorem mem_jsSetOfList {l : List UserId} {x : UserId} :
    x ∈ jsSetOfList l ↔ x ∈ l := by
  simp [jsSetOfList, mem_foldl_jsSetAdd]

theorem nodup_jsSetOfList (l : List UserId) : (jsSetOfList l).Nodup :=
  nodup_foldl_jsSetAdd List.nodup_nil

theorem jsSetOfList_eq_self {l : List UserId} (h : l.Nodup) : jsSetOfList l = l := by
  have aux : ∀ (t acc : List UserId), acc.Nodup → (∀ x ∈ t, x ∉ acc) → t.Nodup →
      t.foldl jsSetAdd acc = acc ++ t := by
    intro t
    induction t with
    | nil => intro acc _ _ _; simp
    | cons a r ih =>
      intro acc hacc hdisj hnd
      have ha : a ∉ acc := hdisj a (List.mem_cons_self a r)
      have step : jsSetAdd acc a = acc ++ [a] := by simp [jsSetAdd, ha]
      have hnd' := (List.nodup_cons.mp hnd).2
      have hna := (List.nodup_cons.mp hnd).1
      have hdisj' : ∀ x ∈ r, x ∉ acc ++ [a] := by
        intro x hx
        simp only [List.mem_append, List.mem_singleton]
        rintro (hxa | rfl)
        · exact hdisj x (List.mem_cons_of_mem a hx) hxa
        · exact hna hx
      have hacca : (acc ++ [a]).Nodup := by
        simpa [List.nodup_append] using ⟨hacc, fun hmem => ha hmem⟩
      calc (a :: r).foldl jsSetAdd acc
          = r.foldl jsSetAdd (jsSetAdd acc a) := by simp
        _ = r.foldl jsSetAdd (acc ++ [a]) := by rw [step]
        _ = (acc ++ [a]) ++ r := ih (acc ++ [a]) hacca hdisj' hnd'
        _ = acc ++ (a :: r) := by simp
  simpa using aux l [] List.nodup_nil (by simp) h

/-! ## C1: draft pick ordering and guards -/

/-- C1: the pick operation advances phases in the exact order A1 (captain A
picks one), B1, B2 (captain B picks); after the B2 pick the single player
left in `remaining` is auto-assigned to team A without a click and the phase
becomes BAN_A; a pick whose actor is not the captain required by the current
phase, or whose target is not currently in the remaining set, is reported to
the actor and leaves the match state unchanged. -/
theorem pick_phase_order (s : MatchState) (picker target : UserId) :
    (s.phase = Phase.A1 → picker = s.captainA → target ∈ s.remaining →
      pickHandler s picker target =
        ({ s with
            remaining := jsSetDelete s.remaining target,
            teamA := jsSetAdd s.teamA target,
            phase := Phase.B1 },
          PickOutcome.accepted)) ∧
    (s.phase = Phase.B1 → picker = s.captainB → target ∈ s.remaining →
      pickHandler s picker target =
        ({ s with
            remaining := jsSetDelete s.remaining target,
            teamB := jsSetAdd s.teamB target,
            phase := Phase.B2 },
          PickOutcome.accepted)) ∧
    (∀ last, s.phase = Phase.B2 → picker = s.captainB → target ∈ s.remaining →
      jsSetDelete s.remaining target = [last] →
      pickHandler s picker target =
        ({ s with
            remaining := [],
            teamA := jsSetAdd s.teamA last,
            teamB := jsSetAdd s.teamB target,
            phase := Phase.BAN_A },
          PickOutcome.accepted)) ∧
    ((s.phase = Phase.A1 ∧ picker ≠ s.captainA) ∨
        ((s.phase = Phase.B1 ∨ s.phase = Phase.B2) ∧ picker ≠ s.captainB) ∨
        target ∉ s.remaining →
      (pickHandler s picker target).1 = s ∧
        (pickHandler s picker target).2 ≠ PickOutcome.accepted) := by
  refine ⟨?_, ?_, ?_, ?_⟩
  · intro hph hpk htg
    simp [pickHandler, hph, hpk, htg]
  · intro hph hpk htg
    simp [pickHandler, hph, hpk, htg]
  · intro last hph hpk htg hrem
    simp [pickHandler, hph, hpk, htg, hrem]
  · intro hbad
    rcases hbad with ⟨hph, hpk⟩ | ⟨hph, hpk⟩ | htg
    · simp [pickHandler, hph, hpk]
    · rcases hph with hph | hph <;> simp [pickHandler, hph, hpk]
    · by_cases h1 : s.phase = Phase.A1 ∧ picker ≠ s.captainA
      · simp [pickHandler, h1]
      · by_cases h2 : (s.phase = Phase.B1 ∨ s.phase = Phase.B2) ∧ picker ≠ s.captainB
        · simp [pickHandler, h1, h2]
        · simp [pickHandler, h1, h2, htg]

/-- Witness for C1 at a concrete draft: players 1..6, captain A = 2,
captain B = 1, remaining {3,4,5,6}; the A1 pick of 3 by captain A is
accepted and moves the phase to B1, while a pick by the wrong captain
changes nothing. -/
theorem pick_phase_order_witness :
    pickHandler (initState [1, 2, 3, 4, 5, 6] 2 1 0) 2 3 =
      ({ initState [1, 2, 3, 4, 5, 6] 2 1 0 with
          remaining := jsSetDelete (initState [1, 2, 3, 4, 5, 6] 2 1 0).remaining 3,
          teamA := jsSetAdd (initState [1, 2, 3, 4, 5, 6] 2 1 0).teamA 3,
          phase := Phase.B1 },
        PickOutcome.accepted) ∧
    (pickHandler (initState [1, 2, 3, 4, 5, 6] 2 1 0) 1 3).1 =
      initState [1, 2, 3, 4, 5, 6] 2 1 0 := by
  refine ⟨(pick_phase_order _ 2 3).1 (by decide) (by decide) (by decide), ?_⟩
  exact ((pick_phase_order (initState [1, 2, 3, 4, 5, 6] 2 1 0) 1 3).2.2.2
    (Or.inl ⟨by decide, by decide⟩)).1

/-! ## C3: draft invariant lemmas -/

theorem length_draftOthers {ids : List UserId} {capA capB : UserId}
    (hnd : ids.Nodup) (hlen : ids.length = QUEUE_SIZE)
    (hA : capA ∈ ids) (hB : capB ∈ ids) (hAB : capA ≠ capB) :
    (draftOthers ids capA capB).length = 4 := by
  have hsplit := List.length_eq_length_filter_add
    (l := ids) (fun id => decide (id ≠ capA ∧ id ≠ capB))
  have hcompl :
      ids.filter (fun id => !(decide (id ≠ capA ∧ id ≠ capB))) = ids.filter
        (fun id => decide (id = capA ∨ id = capB)) := by
    apply List.filter_congr
    intro x _
    by_cases h1 : x = capA <;> by_cases h2 : x = capB <;> simp [h1, h2]
  have hpermPair :
      List.Perm (ids.filter (fun id => decide (id = capA ∨ id = capB))) [capA, capB] := by
    apply (List.perm_ext_iff_of_nodup (hnd.filter _) ?_).mpr
    · intro x
      constructor
      · intro hx
        have := List.of_mem_filter hx
        simpa using this
      · intro hx
        rcases List.mem_pair.mp hx with rfl | rfl
        · exact List.mem_filter.mpr ⟨hA, by simp⟩
        · exact List.mem_filter.mpr ⟨hB, by simp⟩
    · simp [hAB]
  have hlenPair : (ids.filter (fun id => decide (id = capA ∨ id = capB))).length = 2 := by
    simpa using hpermPair.length_eq
  have : ids.length =
      (ids.filter (fun id => decide (id ≠ capA ∧ id ≠ capB))).length + 2 := by
    rw [hsplit, hcompl, hlenPair]
  rw [hlen] at this
  simp only [QUEUE_SIZE] at this
  unfold draftOthers
  omega

theorem inv_initState {ids : List UserId} {capA capB : UserId} {now : Nat}
    (hnd : ids.Nodup) (hlen : ids.length = QUEUE_SIZE)
    (hA : capA ∈ ids) (hB : capB ∈ ids) (hAB : capA ≠ capB) :
    Inv (initState ids capA capB now) := by
  have hplayers : (initState ids capA capB now).players = ids := by
    simp [initState, jsSetOfList_eq_self hnd]
  have hndOthers : (draftOthers ids capA capB).Nodup := hnd.filter _
  have hrem : (initState ids capA capB now).remaining = draftOthers ids capA capB := by
    simp [initState, jsSetOfList_eq_self hndOthers]
  have hmemOthers : ∀ x, x ∈ draftOthers ids capA capB ↔ x ∈ ids ∧ x ≠ capA ∧ x ≠ capB := by
    intro x
    simp [draftOthers]
  have hremLen : (draftOthers ids capA capB).length = 4 :=
    length_draftOthers hnd hlen hA hB hAB
  refine ⟨?_, ?_, ?_, ?_, ?_, ?_, ?_, ?_, ?_, ?_, ?_, ?_, ?_, ?_, ?_⟩
  · intro x hx
    rw [hplayers] at hx
    by_cases h1 : x = capA
    · left; simp [initState, h1]
    · by_cases h2 : x = capB
      · right; left; simp [initState, h2]
      · right; right
        rw [hrem]
        exact (hmemOthers x).mpr ⟨hx, h1, h2⟩
  · intro x hx
    simp only [initState] at hx
    rw [hplayers]
    rcases List.mem_singleton.mp hx with rfl
    exact hA
  · intro x hx
    simp only [initState] at hx
    rw [hplayers]
    rcases List.mem_singleton.mp hx with rfl
    exact hB
  · intro x hx
    rw [hrem] at hx
    rw [hplayers]
    exact ((hmemOthers x).mp hx).1
  · intro x hx
    simp only [initState] at hx ⊢
    rcases List.mem_singleton.mp hx with rfl
    simp [hAB]
  · intro x hx
    simp only [initState] at hx
    rcases List.mem_singleton.mp hx with rfl
    rw [hrem]
    intro hmem
    exact ((hmemOthers x).mp hmem).2.1 rfl
  · intro x hx
    simp only [initState] at hx
    rcases List.mem_singleton.mp hx with rfl
    rw [hrem]
    intro hmem
    exact ((hmemOthers x).mp hmem).2.2 rfl
  · rw [hplayers]; exact hnd
  · simp [initState]
  · simp [initState]
  · rw [hrem]; exact hndOthers
  · simp [initState]
  · simp [initState]
  · rw [hplayers, hlen]
  · rw [hrem]
    simp only [initState, remainingQuota]
    exact hremLen

theorem inv_pick_stepA1 {s : MatchState} {target : UserId}
    (hInv : Inv s) (hph : s.phase = Phase.A1) (ht : target ∈ s.remaining) :
    Inv { s with
      remaining := jsSetDelete s.remaining target,
      teamA := jsSetAdd s.teamA target,
      phase := Phase.B1 } := by
  refine ⟨?_, ?_, ?_, ?_, ?_, ?_, ?_, ?_, ?_, ?_, ?_, ?_, ?_, ?_, ?_⟩
  · intro x hx
    rcases hInv.cover x hx with hA | hB | hR
    · exact Or.inl (mem_jsSetAdd.mpr (Or.inl hA))
    · exact Or.inr (Or.inl hB)
    · by_cases hxt : x = target
      · exact Or.inl (mem_jsSetAdd.mpr (Or.inr hxt))
      · exact Or.inr (Or.inr (mem_jsSetDelete.mpr ⟨hR, hxt⟩))
  · intro x hx
    rcases mem_jsSetAdd.mp hx with hA | rfl
    · exact hInv.subA x hA
    · exact hInv.subR x ht
  · intro x hx
    exact hInv.subB x hx
  · intro x hx
    exact hInv.subR x (mem_jsSetDelete.mp hx).1
  · intro x hx
    rcases mem_jsSetAdd.mp hx with hA | rfl
    · exact hInv.disjAB x hA
    · intro hB
      exact hInv.disjBR x hB ht
  · intro x hx
    rcases mem_jsSetAdd.mp hx with hA | rfl
    · intro hR
      exact hInv.disjAR x hA (mem_jsSetDelete.mp hR).1
    · intro hR
      exact (mem_jsSetDelete.mp hR).2 rfl
  · intro x hx hR
    exact hInv.disjBR x hx (mem_jsSetDelete.mp hR).1
  · exact hInv.ndP
  · exact nodup_jsSetAdd hInv.ndA target
  · exact hInv.ndB
  · exact nodup_jsSetDelete hInv.ndR target
  · exact mem_jsSetAdd.mpr (Or.inl hInv.capA_mem)
  · exact hInv.capB_mem
  · exact hInv.playersLen
  · have hq := hInv.remLen
    rw [hph] at hq
    have := length_jsSetDelete hInv.ndR ht
    simp only [remainingQuota] at hq ⊢
    omega

theorem inv_pick_stepB1 {s : MatchState} {target : UserId}
    (hInv : Inv s) (hph : s.phase = Phase.B1) (ht : target ∈ s.remaining) :
    Inv { s with
      remaining := jsSetDelete s.remaining target,
      teamB := jsSetAdd s.teamB target,
      phase := Phase.B2 } := by
  refine ⟨?_, ?_, ?_, ?_, ?_, ?_, ?_, ?_, ?_, ?_, ?_, ?_, ?_, ?_, ?_⟩
  · intro x hx
    rcases hInv.cover x hx with hA | hB | hR
    · exact Or.inl hA
    · exact Or.inr (Or.inl (mem_jsSetAdd.mpr (Or.inl hB)))
    · by_cases hxt : x = target
      · exact Or.inr (Or.inl (mem_jsSetAdd.mpr (Or.inr hxt)))
      · exact Or.inr (Or.inr (mem_jsSetDelete.mpr ⟨hR, hxt⟩))
  · intro x hx
    exact hInv.subA x hx
  · intro x hx
    rcases mem_jsSetAdd.mp hx with hB | rfl
    · exact hInv.subB x hB
    · exact hInv.subR x ht
  · intro x hx
    exact hInv.subR x (mem_jsSetDelete.mp hx).1
  · intro x hx hB
    rcases mem_jsSetAdd.mp hB with hB' | heq
    · exact hInv.disjAB x hx hB'
    · exact hInv.disjAR x hx (heq ▸ ht)
  · intro x hx hR
    exact hInv.disjAR x hx (mem_jsSetDelete.mp hR).1
  · intro x hx
    rcases mem_jsSetAdd.mp hx with hB | rfl
    · intro hR
      exact hInv.disjBR x hB (mem_jsSetDelete.mp hR).1
    · intro hR
      exact (mem_jsSetDelete.mp hR).2 rfl
  · exact hInv.ndP
  · exact hInv.ndA
  · exact nodup_jsSetAdd hInv.ndB target
  · exact nodup_jsSetDelete hInv.ndR target
  · exact hInv.capA_mem
  · exact mem_jsSetAdd.mpr (Or.inl hInv.capB_mem)
  · exact hInv.playersLen
  · have hq := hInv.remLen
    rw [hph] at hq
    have := length_jsSetDelete hInv.ndR ht
    simp only [remainingQuota] at hq ⊢
    omega

theorem inv_pick_stepB2 {s : MatchState} {target last : UserId}
    (hInv : Inv s) (ht : target ∈ s.remaining)
    (hrem : jsSetDelete s.remaining target = [last]) :
    Inv { s with
      remaining := [],
      teamA := jsSetAdd s.teamA last,
      teamB := jsSetAdd s.teamB target,
      phase := Phase.BAN_A } := by
  have hlast : last ∈ s.remaining ∧ last ≠ target := by
    have : last ∈ jsSetDelete s.remaining target := by
      rw [hrem]; exact List.mem_singleton_self last
    exact mem_jsSetDelete.mp this
  refine ⟨?_, ?_, ?_, ?_, ?_, ?_, ?_, ?_, ?_, ?_, ?_, ?_, ?_, ?_, ?_⟩
  · intro x hx
    rcases hInv.cover x hx with hA | hB | hR
    · exact Or.inl (mem_jsSetAdd.mpr (Or.inl hA))
    · exact Or.inr (Or.inl (mem_jsSetAdd.mpr (Or.inl hB)))
    · by_cases hxt : x = target
      · exact Or.inr (Or.inl (mem_jsSetAdd.mpr (Or.inr hxt)))
      · have : x ∈ jsSetDelete s.remaining target := mem_jsSetDelete.mpr ⟨hR, hxt⟩
        rw [hrem] at this
        exact Or.inl (mem_jsSetAdd.mpr (Or.inr (List.mem_singleton.mp this)))
  · intro x hx
    rcases mem_jsSetAdd.mp hx with hA | rfl
    · exact hInv.subA x hA
    · exact hInv.subR x hlast.1
  · intro x hx
    rcases mem_jsSetAdd.mp hx with hB | rfl
    · exact hInv.subB x hB
    · exact hInv.subR x ht
  · intro x hx
    cases hx
  · intro x hx hB
    rcases mem_jsSetAdd.mp hx with hA | rfl
    · rcases mem_jsSetAdd.mp hB with hB' | heq
      · exact hInv.disjAB x hA hB'
      · exact hInv.disjAR x hA (heq ▸ ht)
    · rcases mem_jsSetAdd.mp hB with hB' | heq
      · exact hInv.disjBR x hB' hlast.1
      · exact hlast.2 heq
  · intro x _ hR
    cases hR
  · intro x _ hR
    cases hR
  · exact hInv.ndP
  · exact nodup_jsSetAdd hInv.ndA last
  · exact nodup_jsSetAdd hInv.ndB target
  · exact List.nodup_nil
  · exact mem_jsSetAdd.mpr (Or.inl hInv.capA_mem)
  · exact mem_jsSetAdd.mpr (Or.inl hInv.capB_mem)
  · exact hInv.playersLen
  · simp [remainingQuota]

theorem inv_end_of_draft {s : MatchState} (hInv : Inv s) (hph : s.phase = Phase.BAN_A) :
    s.teamA.length + s.teamB.length = QUEUE_SIZE ∧ ∀ x ∈ s.teamA, x ∉ s.teamB := by
  have hremNil : s.remaining = [] := by
    have := hInv.remLen
    rw [hph] at this
    simpa [remainingQuota, List.length_eq_zero] using this
  have hndU : (s.teamA ++ s.teamB).Nodup :=
    hInv.ndA.append hInv.ndB (fun x hA hB => hInv.disjAB x hA hB)
  have hperm : List.Perm s.players (s.teamA ++ s.teamB) := by
    apply (List.perm_ext_iff_of_nodup hInv.ndP hndU).mpr
    intro x
    constructor
    · intro hx
      rcases hInv.cover x hx with hA | hB | hR
      · exact List.mem_append.mpr (Or.inl hA)
      · exact List.mem_append.mpr (Or.inr hB)
      · rw [hremNil] at hR
        cases hR
    · intro hx
      rcases List.mem_append.mp hx with hA | hB
      · exact hInv.subA x hA
      · exact hInv.subB x hB
  have hlen := hperm.length_eq
  rw [hInv.playersLen, List.length_append] at hlen
  exact ⟨hlen.symm, hInv.disjAB⟩

/-! ## C3: the draft invariant is established, preserved, and yields the
end-of-draft team sizes -/

/-- C3: from creation through the end of the draft the union of teamA, teamB
and the remaining pool equals the fixed participant set, the teams are
disjoint, and the captains belong to their teams (the `Inv` predicate);
`initState` establishes it, every pick preserves it, and at phase BAN_A the
two disjoint teams cover all six participants. -/
theorem draft_invariant (ids : List UserId) (capA capB : UserId) (now : Nat)
    (s : MatchState) (picker target : UserId) :
    (ids.Nodup → ids.length = QUEUE_SIZE → capA ∈ ids → capB ∈ ids → capA ≠ capB →
      Inv (initState ids capA capB now)) ∧
    (Inv s → Inv (pickHandler s picker target).1) ∧
    (Inv s → s.phase = Phase.BAN_A →
      s.teamA.length + s.teamB.length = QUEUE_SIZE ∧ ∀ x ∈ s.teamA, x ∉ s.teamB) := by
  refine ⟨fun h1 h2 h3 h4 h5 => inv_initState h1 h2 h3 h4 h5, ?_, fun h hph => inv_end_of_draft h hph⟩
  intro hInv
  by_cases hg1 : s.phase = Phase.A1 ∧ picker ≠ s.captainA
  · simpa [pickHandler, hg1] using hInv
  · by_cases hg2 : (s.phase = Phase.B1 ∨ s.phase = Phase.B2) ∧ picker ≠ s.captainB
    · simpa [pickHandler, hg1, hg2] using hInv
    · by_cases hg3 : target ∈ s.remaining
      · cases hph : s.phase with
        | A1 =>
          have hpk : picker = s.captainA := by
            rcases not_and_or.mp hg1 with h | h
            · exact absurd hph h
            · simpa using h
          simpa [pickHandler, hg1, hg2, hg3, hph, hpk] using inv_pick_stepA1 hInv hph hg3
        | B1 =>
          have hpk : picker = s.captainB := by
            rcases not_and_or.mp hg2 with h | h
            · exact absurd (Or.inl hph) h
            · simpa using h
          simpa [pickHandler, hg1, hg2, hg3, hph, hpk] using inv_pick_stepB1 hInv hph hg3
        | B2 =>
          have hpk : picker = s.captainB := by
            rcases not_and_or.mp hg2 with h | h
            · exact absurd (Or.inr hph) h
            · simpa using h
          have hlen1 : (jsSetDelete s.remaining target).length = 1 := by
            have hq := hInv.remLen
            rw [hph] at hq
            have := length_jsSetDelete hInv.ndR hg3
            simp only [remainingQuota] at hq
            omega
          obtain ⟨last, hrem⟩ := List.length_eq_one.mp hlen1
          have := inv_pick_stepB2 hInv hg3 hrem
          simpa [pickHandler, hg1, hg2, hg3, hph, hpk, hrem] using this
        | BAN_A =>
          have : s.remaining = [] := by
            have := hInv.remLen
            rw [hph] at this
            simpa [remainingQuota, List.length_eq_zero] using this
          rw [this] at hg3
          cases hg3
        | BAN_B =>
          have : s.remaining = [] := by
            have := hInv.remLen
            rw [hph] at this
            simpa [remainingQuota, List.length_eq_zero] using this
          rw [this] at hg3
          cases hg3
        | VOTE =>
          have : s.remaining = [] := by
            have := hInv.remLen
            rw [hph] at this
            simpa [remainingQuota, List.length_eq_zero] using this
          rw [this] at hg3
          cases hg3
      · simpa [pickHandler, hg1, hg2, hg3] using hInv

/-- Witness for C3: the invariant holds for the freshly created state of
players 1..6 with captains 2 and 1, is preserved by the first pick, and a
concrete finished draft has teams of sizes summing to six. -/
theorem draft_invariant_witness :
    Inv (initState [1, 2, 3, 4, 5, 6] 2 1 0) ∧
    Inv (pickHandler (initState [1, 2, 3, 4, 5, 6] 2 1 0) 2 3).1 := by
  have h0 : Inv (initState [1, 2, 3, 4, 5, 6] 2 1 0) :=
    (draft_invariant [1, 2, 3, 4, 5, 6] 2 1 0 (initState [1, 2, 3, 4, 5, 6] 2 1 0) 2 3).1
      (by decide) (by decide) (by decide) (by decide) (by decide)
  exact ⟨h0,
    (draft_invariant [1, 2, 3, 4, 5, 6] 2 1 0 (initState [1, 2, 3, 4, 5, 6] 2 1 0) 2 3).2.1 h0⟩

/-! ## C2: finalize lemmas -/

theorem applyWinners_map {ws : List UserId} (hnd : ws.Nodup) (users : List Usr) :
    applyWinners users ws =
      users.map (fun u => if u.discordId ∈ ws then winUpdate u else u) := by
  induction ws generalizing users with
  | nil =>
    simp [applyWinners]
  | cons w ws ih =>
    have hw : w ∉ ws := (List.nodup_cons.mp hnd).1
    have hnd' := (List.nodup_cons.mp hnd).2
    have hstep : applyWinners users (w :: ws) = applyWinners (applyWinner users w) ws := by
      simp [applyWinners]
    rw [hstep, ih hnd', applyWinner, List.map_map]
    apply List.map_congr_left
    intro u _
    by_cases hu : u.discordId = w
    · have : (winUpdate u).discordId = u.discordId := rfl
      simp [Function.comp, hu, this, hw]
    · simp [Function.comp, hu, List.mem_cons]

theorem applyLosers_map {ls : List UserId} (hnd : ls.Nodup) (users : List Usr) :
    applyLosers users ls =
      users.map (fun u => if u.discordId ∈ ls then lossUpdate u else u) := by
  induction ls generalizing users with
  | nil =>
    simp [applyLosers]
  | cons l ls ih =>
    have hl : l ∉ ls := (List.nodup_cons.mp hnd).1
    have hnd' := (List.nodup_cons.mp hnd).2
    have hstep : applyLosers users (l :: ls) = applyLosers (applyLoser users l) ls := by
      simp [applyLosers]
    rw [hstep, ih hnd', applyLoser, List.map_map]
    apply List.map_congr_left
    intro u _
    by_cases hu : u.discordId = l
    · have : (lossUpdate u).discordId = u.discordId := rfl
      simp [Function.comp, hu, this, hl]
    · simp [Function.comp, hu, List.mem_cons]

theorem applyWinners_then_losers_map {ws ls : List UserId}
    (hndw : ws.Nodup) (hndl : ls.Nodup) (hdisj : ∀ x ∈ ws, x ∉ ls) (users : List Usr) :
    applyLosers (applyWinners users ws) ls =
      users.map (fun u =>
        if u.discordId ∈ ws then winUpdate u
        else if u.discordId ∈ ls then lossUpdate u
        else u) := by
  rw [applyWinners_map hndw, applyLosers_map hndl, List.map_map]
  apply List.map_congr_left
  intro u _
  by_cases hw : u.discordId ∈ ws
  · have hnotl : u.discordId ∉ ls := hdisj _ hw
    have hid : (winUpdate u).discordId = u.discordId := rfl
    simp [Function.comp, hw, hid, hnotl]
  · by_cases hl : u.discordId ∈ ls
    · simp [Function.comp, hw, hl]
    · simp [Function.comp, hw, hl]

/-! ## C2: finalize declares a winner exactly at the threshold, applies the
stat deltas once, and is idempotent -/

/-- C2: with a persisted match id, `tryFinalize` reports a winner exactly
when one team's vote count reaches `VOTE_THRESHOLD`; on the first successful
finalize (flag clear, status not "done") each winner row gains one win and
the win award, each loser row gains one loss and drops the loss penalty, and
the match status is set to done; a call made with the in-memory flag set, or
with the persisted status already "done", applies no stat deltas. -/
theorem finalize_threshold_and_idempotent (s : MatchState) (db : Db) (mid : Nat)
    (hmid : s.matchId = some mid) :
    (s.finalized = false →
      ((tryFinalize s db).finalized = true ↔
        VOTE_THRESHOLD ≤ voteCount db.votes mid s.teamAId ∨
          VOTE_THRESHOLD ≤ voteCount db.votes mid s.teamBId)) ∧
    (s.finalized = false →
      matchStatus db.matchesTbl mid ≠ some "done" →
      s.teamA.Nodup → s.teamB.Nodup → (∀ x ∈ s.teamA, x ∉ s.teamB) →
      (VOTE_THRESHOLD ≤ voteCount db.votes mid s.teamAId ∨
        VOTE_THRESHOLD ≤ voteCount db.votes mid s.teamBId) →
      (tryFinalize s db).db.users = db.users.map (fun u =>
        if u.discordId ∈
            (if VOTE_THRESHOLD ≤ voteCount db.votes mid s.teamAId then s.teamA
              else s.teamB) then
          winUpdate u
        else if u.discordId ∈
            (if VOTE_THRESHOLD ≤ voteCount db.votes mid s.teamAId then s.teamB
              else s.teamA) then
          lossUpdate u
        else u) ∧
        (tryFinalize s db).db.matchesTbl = setMatchDone db.matchesTbl mid ∧
        (tryFinalize s db).state.finalized = true) ∧
    (s.finalized = true → tryFinalize s db = ⟨s, db, true⟩) ∧
    (s.finalized = false → matchStatus db.matchesTbl mid = some "done" →
      (tryFinalize s db).db = db) := by
  refine ⟨?_, ?_, ?_, ?_⟩
  · intro hfin
    by_cases hth : VOTE_THRESHOLD ≤ voteCount db.votes mid s.teamAId ∨
        VOTE_THRESHOLD ≤ voteCount db.votes mid s.teamBId
    · by_cases hdone : matchStatus db.matchesTbl mid = some "done" <;>
        simp [tryFinalize, hmid, hfin, hth, hdone]
    · simp [tryFinalize, hmid, hfin, hth]
  · intro hfin hdone hndA hndB hdisj hth
    by_cases hA : VOTE_THRESHOLD ≤ voteCount db.votes mid s.teamAId
    · have := applyWinners_then_losers_map hndA hndB hdisj db.users
      simp [tryFinalize, hmid, hfin, hA, hdone, this]
    · have hB : VOTE_THRESHOLD ≤ voteCount db.votes mid s.teamBId := by
        rcases hth with h | h
        · exact absurd h hA
        · exact h
      have hdisj' : ∀ x ∈ s.teamB, x ∉ s.teamA := by
        intro x hx hxA
        exact hdisj x hxA hx
      have := applyWinners_then_losers_map hndB hndA hdisj' db.users
      simp [tryFinalize, hmid, hfin, hA, hB, hdone, this]
  · intro hfin
    simp [tryFinalize, hmid, hfin]
  · intro hfin hdone
    by_cases hth : VOTE_THRESHOLD ≤ voteCount db.votes mid s.teamAId ∨
        VOTE_THRESHOLD ≤ voteCount db.votes mid s.teamBId
    · rcases hth with h | h <;> simp [tryFinalize, hmid, hfin, h, hdone]
    · simp [tryFinalize, hmid, hfin, hth]

/-- Witness for C2 at the sample vote-phase match: four votes for team A
finalize the match, team A rows gain a win and 30 points, and a second
invocation of finalize on the updated state and store changes nothing. -/
theorem finalize_threshold_and_idempotent_witness :
    (tryFinalize sampleVoteState sampleVoteDb).finalized = true ∧
    (tryFinalize sampleVoteState sampleVoteDb).db.users =
      sampleVoteDb.users.map (fun u =>
        if u.discordId ∈ sampleVoteState.teamA then winUpdate u
        else if u.discordId ∈ sampleVoteState.teamB then lossUpdate u
        else u) ∧
    tryFinalize (tryFinalize sampleVoteState sampleVoteDb).state
        (tryFinalize sampleVoteState sampleVoteDb).db =
      ⟨(tryFinalize sampleVoteState sampleVoteDb).state,
        (tryFinalize sampleVoteState sampleVoteDb).db, true⟩ := by
  have h := finalize_threshold_and_idempotent sampleVoteState sampleVoteDb 1 (by decide)
  refine ⟨(h.1 (by decide)).mpr (by decide), ?_, ?_⟩
  · have h2 := h.2.1 (by decide) (by decide) (by decide) (by decide) (by decide) (by decide)
    have hcount : VOTE_THRESHOLD ≤ voteCount sampleVoteDb.votes 1 sampleVoteState.teamAId := by
      decide
    simpa [hcount] using h2.1
  · have hfin : (tryFinalize sampleVoteState sampleVoteDb).state.finalized = true := by decide
    exact (finalize_threshold_and_idempotent (tryFinalize sampleVoteState sampleVoteDb).state
      (tryFinalize sampleVoteState sampleVoteDb).db 1 (by decide)).2.2.1 hfin

/-! ## C4: captain selection lemmas -/

theorem perm_insertDescByPoints (u : Usr) (l : List Usr) :
    List.Perm (insertDescByPoints u l) (u :: l) := by
  induction l with
  | nil => simp [insertDescByPoints]
  | cons v vs ih =>
    unfold insertDescByPoints
    split
    · exact List.Perm.refl _
    · exact (ih.cons v).trans (List.Perm.swap u v vs)

theorem perm_sortByPointsDesc (l : List Usr) :
    List.Perm (sortByPointsDesc l) l := by
  induction l with
  | nil => simp [sortByPointsDesc]
  | cons u us ih =>
    have hstep : sortByPointsDesc (u :: us) = insertDescByPoints u (sortByPointsDesc us) := rfl
    rw [hstep]
    exact (perm_insertDescByPoints u (sortByPointsDesc us)).trans (ih.cons u)

theorem sorted_insertDescByPoints (u : Usr) {l : List Usr}
    (h : l.Pairwise (fun a b => b.points ≤ a.points)) :
    (insertDescByPoints u l).Pairwise (fun a b => b.points ≤ a.points) := by
  induction l with
  | nil => simp [insertDescByPoints]
  | cons v vs ih =>
    obtain ⟨hv, hvs⟩ := List.pairwise_cons.mp h
    unfold insertDescByPoints
    split
    · rename_i huv
      apply List.pairwise_cons.mpr
      refine ⟨?_, h⟩
      intro x hx
      rcases List.mem_cons.mp hx with rfl | hxvs
      · exact huv
      · exact le_trans (hv x hxvs) huv
    · rename_i huv
      push_neg at huv
      apply List.pairwise_cons.mpr
      refine ⟨?_, ih hvs⟩
      intro x hx
      have hx' : x ∈ u :: vs := (perm_insertDescByPoints u vs).mem_iff.mp hx
      rcases List.mem_cons.mp hx' with rfl | hxvs
      · exact le_of_lt huv
      · exact hv x hxvs

theorem sorted_sortByPointsDesc (l : List Usr) :
    (sortByPointsDesc l).Pairwise (fun a b => b.points ≤ a.points) := by
  induction l with
  | nil => simp [sortByPointsDesc]
  | cons u us ih => exact sorted_insertDescByPoints u ih

/-! ## C4: the highest-point participant becomes captain B, the second
highest captain A, and the other four form the remaining pool -/

/-- C4: when the sorted profile rows are `b :: a :: rest`, `selectCaptains`
makes `b` (a maximal-points row) captain B and `a` (maximal among the rest)
captain A, and the initial remaining pool of the installed state is exactly
the four participants other than the two captains. -/
theorem captain_selection (playerIds : List UserId) (users : List Usr)
    (b a : Usr) (rest : List Usr) (now : Nat)
    (hsort : sortByPointsDesc users = b :: a :: rest) :
    selectCaptains users = some (a.discordId, b.discordId) ∧
    b ∈ users ∧ a ∈ users ∧
    (∀ u ∈ users, u.points ≤ b.points) ∧
    a.points ≤ b.points ∧
    (∀ u ∈ rest, u.points ≤ a.points) ∧
    (playerIds.Nodup → playerIds.length = QUEUE_SIZE →
      a.discordId ∈ playerIds → b.discordId ∈ playerIds → a.discordId ≠ b.discordId →
      (initState playerIds a.discordId b.discordId now).remaining =
          draftOthers playerIds a.discordId b.discordId ∧
        (draftOthers playerIds a.discordId b.discordId).length = 4) := by
  have hperm := perm_sortByPointsDesc users
  rw [hsort] at hperm
  have hsorted := sorted_sortByPointsDesc users
  rw [hsort] at hsorted
  obtain ⟨hb, hrest⟩ := List.pairwise_cons.mp hsorted
  obtain ⟨ha, _⟩ := List.pairwise_cons.mp hrest
  refine ⟨?_, ?_, ?_, ?_, ?_, ?_, ?_⟩
  · simp [selectCaptains, hsort]
  · exact hperm.mem_iff.mp (List.mem_cons_self b _)
  · exact hperm.mem_iff.mp (List.mem_cons.mpr (Or.inr (List.mem_cons_self a rest)))
  · intro u hu
    have : u ∈ b :: a :: rest := hperm.mem_iff.mpr hu
    rcases List.mem_cons.mp this with rfl | h
    · exact le_refl _
    · exact hb u h
  · exact hb a (List.mem_cons_self a rest)
  · exact ha
  · intro hnd hlen hain hbin hne
    constructor
    · have hndOthers : (draftOthers playerIds a.discordId b.discordId).Nodup := hnd.filter _
      simp [initState, jsSetOfList_eq_self hndOthers]
    · exact length_draftOthers hnd hlen hain hbin hne

/-- Witness for C4: six profile rows with distinct points; the 1500-point
player 2 becomes captain B, the 1200-point player 1 captain A, and the
remaining pool is the other four. -/
theorem captain_selection_witness :
    selectCaptains
        [⟨1, 1200, 0, 0⟩, ⟨2, 1500, 0, 0⟩, ⟨3, 900, 0, 0⟩,
          ⟨4, 1000, 0, 0⟩, ⟨5, 1100, 0, 0⟩, ⟨6, 950, 0, 0⟩] = some (1, 2) ∧
    (initState [1, 2, 3, 4, 5, 6] 1 2 0).remaining = draftOthers [1, 2, 3, 4, 5, 6] 1 2 ∧
    (draftOthers [1, 2, 3, 4, 5, 6] 1 2).length = 4 := by
  have h := captain_selection [1, 2, 3, 4, 5, 6]
    [⟨1, 1200, 0, 0⟩, ⟨2, 1500, 0, 0⟩, ⟨3, 900, 0, 0⟩,
      ⟨4, 1000, 0, 0⟩, ⟨5, 1100, 0, 0⟩, ⟨6, 950, 0, 0⟩]
    ⟨2, 1500, 0, 0⟩ ⟨1, 1200, 0, 0⟩
    [⟨5, 1100, 0, 0⟩, ⟨4, 1000, 0, 0⟩, ⟨6, 950, 0, 0⟩, ⟨3, 900, 0, 0⟩] 0 (by decide)
  have hlast := h.2.2.2.2.2.2 (by decide) (by decide) (by decide) (by decide) (by decide)
  exact ⟨h.1, hlast.1, hlast.2⟩

/-! ## C5: map selection lemmas -/

theorem length_filter_ne {α : Type} [DecidableEq α] {l : List α} {x : α}
    (hnd : l.Nodup) (hx : x ∈ l) :
    (l.filter (fun y => y ≠ x)).length + 1 = l.length := by
  induction l with
  | nil => cases hx
  | cons a t ih =>
    by_cases hax : a = x
    · subst hax
      have hnotmem := (List.nodup_cons.mp hnd).1
      have hfa : t.filter (fun y => y ≠ a) = t := by
        apply List.filter_eq_self.mpr
        intro b hb
        simp only [ne_eq, decide_eq_true_eq]
        intro hba
        exact hnotmem (hba ▸ hb)
      simp [hfa]
      intro b hb hba
      exact hnotmem (hba ▸ hb)
    · have hxt : x ∈ t := by
        rcases List.mem_cons.mp hx with h | h
        · exact absurd h.symm hax
        · exact h
      have hnd' := (List.nodup_cons.mp hnd).2
      have hstep : (a :: t).filter (fun y => y ≠ x) = a :: t.filter (fun y => y ≠ x) := by
        simp [hax]
      rw [hstep]
      simp only [List.length_cons]
      have := ih hnd' hxt
      omega

theorem map_getD_range {α : Type} (d : α) (l : List α) :
    (List.range l.length).map (fun i => l.getD i d) = l := by
  induction l with
  | nil => simp
  | cons a t ih =>
    rw [List.length_cons, List.range_succ_eq_map, List.map_cons, List.map_map]
    have harg : ((fun i => (a :: t).getD i d) ∘ Nat.succ) = fun i => t.getD i d := by
      funext i
      simp [Function.comp]
    rw [harg, ih]
    simp [List.getD_cons_zero]

/-! ## C5: after the second ban the map is drawn uniformly from the N−2
survivors and the vote-start timestamp is recorded -/

/-- C5: a valid second ban leaves exactly `MAPS.length − 2` candidate maps,
none of them banned; the selected map is the `randIndex`-th candidate, and
the uniformly drawn index enumerates each candidate exactly once (the
enumeration of the index range is the candidate list and the candidate list
has no duplicates); the phase becomes VOTE with the vote-start timestamp
recorded. -/
theorem second_ban_uniform_selection (s : MatchState) (banner : UserId)
    (mapName : String) (randIndex now : Nat)
    (hph : s.phase = Phase.BAN_B) (hb : banner = s.captainB)
    (hmem : mapName ∈ s.availableMaps)
    (hnd : s.availableMaps.Nodup)
    (hdisj : ∀ m ∈ s.availableMaps, m ∉ s.bannedMaps)
    (hcount : s.availableMaps.length + s.bannedMaps.length = MAPS.length)
    (hban1 : s.bannedMaps.length = 1)
    (hr : randIndex < (s.availableMaps.filter (fun m => m ≠ mapName)).length) :
    banHandler s banner mapName randIndex now =
      ({ s with
          availableMaps := s.availableMaps.filter (fun m => m ≠ mapName),
          bannedMaps := s.bannedMaps ++ [mapName],
          selectedMap :=
            some ((s.availableMaps.filter (fun m => m ≠ mapName)).getD randIndex ""),
          phase := Phase.VOTE,
          voteStartTime := some now },
        BanOutcome.accepted) ∧
    (s.availableMaps.filter (fun m => m ≠ mapName)).length = MAPS.length - 2 ∧
    (s.availableMaps.filter (fun m => m ≠ mapName)).getD randIndex "" ∈
      s.availableMaps.filter (fun m => m ≠ mapName) ∧
    (s.availableMaps.filter (fun m => m ≠ mapName)).getD randIndex "" ∉
      s.bannedMaps ++ [mapName] ∧
    (List.range (s.availableMaps.filter (fun m => m ≠ mapName)).length).map
        (fun i => (s.availableMaps.filter (fun m => m ≠ mapName)).getD i "") =
      s.availableMaps.filter (fun m => m ≠ mapName) ∧
    (s.availableMaps.filter (fun m => m ≠ mapName)).Nodup := by
  have hlen : (s.availableMaps.filter (fun m => m ≠ mapName)).length + 1 =
      s.availableMaps.length := length_filter_ne hnd hmem
  have hsel : (s.availableMaps.filter (fun m => m ≠ mapName)).getD randIndex "" ∈
      s.availableMaps.filter (fun m => m ≠ mapName) := by
    rw [List.getD_eq_getElem _ _ hr]
    exact List.getElem_mem hr
  have hselAvail : (s.availableMaps.filter (fun m => m ≠ mapName)).getD randIndex "" ∈
      s.availableMaps := List.mem_of_mem_filter hsel
  have hselNe : (s.availableMaps.filter (fun m => m ≠ mapName)).getD randIndex "" ≠ mapName := by
    have := List.of_mem_filter hsel
    simpa using this
  refine ⟨?_, ?_, hsel, ?_, map_getD_range _ _, hnd.filter _⟩
  · simp [banHandler, hph, hb, hmem]
  · omega
  · intro hmemBan
    rcases List.mem_append.mp hmemBan with h | h
    · exact hdisj _ hselAvail h
    · exact hselNe (List.mem_singleton.mp h)

/-- Witness for C5: after a first ban of Jungle, captain B bans Ziggurant;
the `7 − 2 = 5` surviving candidates remain, random index 2 selects Neden-3,
the phase becomes VOTE and the vote-start timestamp is recorded. -/
theorem second_ban_uniform_selection_witness :
    banHandler
        { sampleVoteState with
            phase := Phase.BAN_B,
            availableMaps := ["Temple-M", "Old-School", "Neden-3", "Tunnel", "Colloseum", "Ziggurant"],
            bannedMaps := ["Jungle"],
            selectedMap := none,
            voteStartTime := none } 1 "Ziggurant" 2 777 =
      ({ sampleVoteState with
          phase := Phase.VOTE,
          availableMaps := ["Temple-M", "Old-School", "Neden-3", "Tunnel", "Colloseum"],
          bannedMaps := ["Jungle", "Ziggurant"],
          selectedMap := some "Neden-3",
          voteStartTime := some 777 },
        BanOutcome.accepted) := by
  have h := second_ban_uniform_selection
    { sampleVoteState with
        phase := Phase.BAN_B,
        availableMaps := ["Temple-M", "Old-School", "Neden-3", "Tunnel", "Colloseum", "Ziggurant"],
        bannedMaps := ["Jungle"],
        selectedMap := none,
        voteStartTime := none } 1 "Ziggurant" 2 777
    (by decide) (by decide) (by decide) (by decide) (by decide) (by decide) (by decide) (by decide)
  have h1 := h.1
  simpa using h1

/-! ## C7: re-voting updates the single existing record -/

/-- C7: starting from at most one vote record per voter per match, a vote
write leaves exactly one record for that voter and match, carrying the newly
chosen team; when a record already existed no second record is created (the
table length is unchanged), and records of other voters or matches are
untouched. -/
theorem vote_upsert_single_record (votes : List VoteRec) (mid voter team : Nat)
    (hone : (votesFor votes mid voter).length ≤ 1) :
    votesFor (voteUpsert votes mid voter team) mid voter = [⟨mid, voter, team⟩] ∧
    (voteUpsert votes mid voter team).filter
        (fun v => ¬(v.matchId = mid ∧ v.voterDiscordId = voter)) =
      votes.filter (fun v => ¬(v.matchId = mid ∧ v.voterDiscordId = voter)) ∧
    (votesFor votes mid voter ≠ [] →
      (voteUpsert votes mid voter team).length = votes.length) := by
  induction votes with
  | nil =>
    refine ⟨?_, ?_, ?_⟩
    · simp [votesFor, voteUpsert]
    · simp [voteUpsert]
    · intro h
      simp [votesFor] at h
  | cons v vs ih =>
    by_cases hv : v.matchId = mid ∧ v.voterDiscordId = voter
    · have hupd : voteUpsert (v :: vs) mid voter team =
          { v with voteForTeamId := team } :: vs := by
        simp [voteUpsert, hv]
      have hvotesCons : votesFor (v :: vs) mid voter = v :: votesFor vs mid voter := by
        simp [votesFor, hv]
      have hnilvs : votesFor vs mid voter = [] := by
        rw [hvotesCons] at hone
        simp only [List.length_cons] at hone
        exact List.length_eq_zero.mp (by omega)
      have hrec : ({ v with voteForTeamId := team } : VoteRec) = ⟨mid, voter, team⟩ := by
        cases v
        simp_all
      refine ⟨?_, ?_, ?_⟩
      · rw [hupd]
        have : votesFor ({ v with voteForTeamId := team } :: vs) mid voter =
            { v with voteForTeamId := team } :: votesFor vs mid voter := by
          simp [votesFor, hv.1, hv.2]
        rw [this, hnilvs, hrec]
      · rw [hupd]
        have hl : (({ v with voteForTeamId := team } : VoteRec) :: vs).filter
            (fun v => ¬(v.matchId = mid ∧ v.voterDiscordId = voter)) =
            vs.filter (fun v => ¬(v.matchId = mid ∧ v.voterDiscordId = voter)) := by
          simp [hv.1, hv.2]
        have hr : (v :: vs).filter
            (fun v => ¬(v.matchId = mid ∧ v.voterDiscordId = voter)) =
            vs.filter (fun v => ¬(v.matchId = mid ∧ v.voterDiscordId = voter)) := by
          simp [hv.1, hv.2]
        rw [hl, hr]
      · intro _
        rw [hupd]
        simp
    · have hupd : voteUpsert (v :: vs) mid voter team = v :: voteUpsert vs mid voter team := by
        simp [voteUpsert, hv]
      have hvotesCons : votesFor (v :: vs) mid voter = votesFor vs mid voter := by
        simp only [votesFor, List.filter_cons]
        have : ¬(decide (v.matchId = mid ∧ v.voterDiscordId = voter) = true) := by
          simpa using hv
        simp [votesFor, this]
      have hone' : (votesFor vs mid voter).length ≤ 1 := by
        rw [hvotesCons] at hone
        exact hone
      obtain ⟨ih1, ih2, ih3⟩ := ih hone'
      refine ⟨?_, ?_, ?_⟩
      · rw [hupd]
        have : votesFor (v :: voteUpsert vs mid voter team) mid voter =
            votesFor (voteUpsert vs mid voter team) mid voter := by
          simp only [votesFor, List.filter_cons]
          have hdec : ¬(decide (v.matchId = mid ∧ v.voterDiscordId = voter) = true) := by
            simpa using hv
          simp [votesFor, hdec]
        rw [this, ih1]
      · rw [hupd]
        have hdec : (decide ¬(v.matchId = mid ∧ v.voterDiscordId = voter)) = true := by
          simp only [decide_eq_true_eq]
          exact hv
        simp only [List.filter_cons, hdec, if_pos]
        rw [ih2]
      · intro hne
        rw [hvotesCons] at hne
        rw [hupd]
        simp only [List.length_cons, ih3 hne]

/-- Witness for C7: voter 2 of match 1 already voted for team 10; re-voting
for team 20 rewrites that single record in place. -/
theorem vote_upsert_single_record_witness :
    votesFor (voteUpsert [⟨1, 2, 10⟩, ⟨1, 3, 10⟩] 1 2 20) 1 2 = [⟨1, 2, 20⟩] ∧
    (voteUpsert [⟨1, 2, 10⟩, ⟨1, 3, 10⟩] 1 2 20).length = 2 := by
  have h := vote_upsert_single_record [⟨1, 2, 10⟩, ⟨1, 3, 10⟩] 1 2 20 (by decide)
  refine ⟨h.1, ?_⟩
  rw [h.2.2 (by decide)]
  rfl

/-! ## C8: a dodge ban rejects joins strictly before its expiry and not after -/

/-- C8: with a dodge-ban entry expiring at `b.timestamp`, every join attempt
strictly before that instant leaves the queue unchanged, and when no earlier
guard fires the reply reports the remaining minutes rounded up; at or after
the expiry the ban never produces a rejection, and an otherwise eligible
member is admitted. -/
theorem dodge_ban_gates_join (q : List UserId) (otherQueue : Option String)
    (requiredRoles memberRoles : List String)
    (bans : List (UserId × BanEntry)) (inActiveMatch : Bool)
    (memberId now : Nat) (b : BanEntry)
    (hban : jsMapGet bans memberId = some b) :
    (now < b.timestamp →
      (joinHandler q otherQueue requiredRoles memberRoles bans inActiveMatch
          memberId now).q = q ∧
      (memberId ∉ q → otherQueue = none →
        (requiredRoles = [] ∨ memberRoles.any (fun r => r ∈ requiredRoles)) →
        (joinHandler q otherQueue requiredRoles memberRoles bans inActiveMatch
            memberId now).reply =
          JoinReply.dodgeBanned ((b.timestamp - now + 59999) / 60000))) ∧
    (b.timestamp ≤ now →
      (∀ m, (joinHandler q otherQueue requiredRoles memberRoles bans inActiveMatch
          memberId now).reply ≠ JoinReply.dodgeBanned m) ∧
      (memberId ∉ q → otherQueue = none →
        (requiredRoles = [] ∨ memberRoles.any (fun r => r ∈ requiredRoles)) →
        inActiveMatch = false →
        (joinHandler q otherQueue requiredRoles memberRoles bans inActiveMatch
            memberId now).q = jsSetAdd q memberId ∧
          (joinHandler q otherQueue requiredRoles memberRoles bans inActiveMatch
              memberId now).reply = JoinReply.joined)) := by
  constructor
  · intro hlt
    have hbanned : isUserDodgeBanned bans memberId now = (true, bans) := by
      simp [isUserDodgeBanned, hban]
      omega
    have htime : getDodgeBanTimeLeft bans memberId now = (b.timestamp - now + 59999) / 60000 := by
      simp [getDodgeBanTimeLeft, hban]
      omega
    constructor
    · by_cases hq : memberId ∈ q
      · simp [joinHandler, hq]
      · cases hoq : otherQueue with
        | some name => simp [joinHandler, hq, hoq]
        | none =>
          by_cases hcond : (¬requiredRoles = [] ∧ ∀ x ∈ memberRoles, x ∉ requiredRoles)
          · simp [joinHandler, hq, hoq, hcond.1]
            split
            · rfl
            · simp [hbanned]
          · simp [joinHandler, hq, hoq, hcond, hbanned]
    · intro hq hoq hrole
      have hc : ¬(¬requiredRoles = [] ∧ ∀ x ∈ memberRoles, x ∉ requiredRoles) := by
        rcases hrole with h | h
        · exact fun hc => hc.1 h
        · intro hc
          obtain ⟨r, hr, hrin⟩ := List.any_eq_true.mp h
          exact hc.2 r hr (of_decide_eq_true hrin)
      simp [joinHandler, hq, hoq, hc, hbanned, htime]
  · intro hge
    have hfree : isUserDodgeBanned bans memberId now = (false, jsMapDelete bans memberId) := by
      simp [isUserDodgeBanned, hban]
      omega
    constructor
    · intro m
      by_cases hq : memberId ∈ q
      · simp [joinHandler, hq]
      · cases hoq : otherQueue with
        | some name => simp [joinHandler, hq, hoq]
        | none =>
          by_cases hcond : (¬requiredRoles = [] ∧ ∀ x ∈ memberRoles, x ∉ requiredRoles)
          · simp [joinHandler, hq, hoq, hcond.1]
            split
            · simp
            · cases hgame : inActiveMatch <;> simp [hfree, hgame]
          · cases hgame : inActiveMatch
            · simp [joinHandler, hq, hoq, hcond, hfree, hgame]
            · simp [joinHandler, hq, hoq, hcond, hfree, hgame]
    · intro hq hoq hrole hgame
      have hc : ¬(¬requiredRoles = [] ∧ ∀ x ∈ memberRoles, x ∉ requiredRoles) := by
        rcases hrole with h | h
        · exact fun hc => hc.1 h
        · intro hc
          obtain ⟨r, hr, hrin⟩ := List.any_eq_true.mp h
          exact hc.2 r hr (of_decide_eq_true hrin)
      constructor
      · simp [joinHandler, hq, hoq, hc, hfree, hgame]
      · simp [joinHandler, hq, hoq, hc, hfree, hgame]

/-- Witness for C8: user 7 banned until t = 3600000; a join at one minute is
rejected reporting 59 minutes left, and a join at the expiry instant is
admitted. -/
theorem dodge_ban_gates_join_witness :
    (joinHandler [] none [] [] [(7, ⟨3600000, 0⟩)] false 7 60000).q = [] ∧
    (joinHandler [] none [] [] [(7, ⟨3600000, 0⟩)] false 7 60000).reply =
      JoinReply.dodgeBanned 59 ∧
    (joinHandler [] none [] [] [(7, ⟨3600000, 0⟩)] false 7 3600000).q = jsSetAdd [] 7 ∧
    (joinHandler [] none [] [] [(7, ⟨3600000, 0⟩)] false 7 3600000).reply =
      JoinReply.joined := by
  have h1 := dodge_ban_gates_join [] none [] [] [(7, ⟨3600000, 0⟩)] false 7 60000
    ⟨3600000, 0⟩ (by decide)
  have h2 := dodge_ban_gates_join [] none [] [] [(7, ⟨3600000, 0⟩)] false 7 3600000
    ⟨3600000, 0⟩ (by decide)
  obtain ⟨hq1, hr1⟩ := h1.1 (by decide)
  have hr1' := hr1 (by decide) rfl (Or.inl rfl)
  obtain ⟨hq2, hr2⟩ := (h2.2 (by decide)).2 (by decide) rfl (Or.inl rfl) rfl
  exact ⟨hq1, by simpa using hr1', hq2, hr2⟩

/-! ## C6: the /dodge chat command never reaches its branch -/

/-- C6 (code defect): the interaction listener returns at
`if (!interaction.isButton()) return;` before the `/dodge` chat-command
branch, so an in-window dodge attempt (2 minutes after the vote phase
started) is silently ignored — no reply, no ban, no cancellation — even
though the `/dodge` branch itself, were it reachable, would accept exactly
the in-window attempt (installing the one-hour ban, cancelling the persisted
match and dropping the registry entries) while rejecting an attempt 10
minutes in as expired and an attempt before the bans complete as too
early. -/
theorem dodge_command_unreachable :
    dodgeDispatch (Interaction.slash "dodge") sampleDodgeWorld 500 3 121000 =
      (sampleDodgeWorld, none) ∧
    dodgeBranch sampleDodgeWorld 500 3 121000 =
      ({ matchesMap := []
         dodgeBans := [(3, ⟨3721000, 121000⟩)]
         voteUpdateQueues := []
         matchesTbl := [⟨1, "cancelled"⟩] }, DodgeOutcome.accepted) ∧
    dodgeBranch sampleDodgeWorld 500 3 601001 =
      (sampleDodgeWorld, DodgeOutcome.windowExpired) ∧
    dodgeBranch
        { sampleDodgeWorld with
            matchesMap := [(500, { sampleVoteState with voteStartTime := none })] }
        500 3 121000 =
      ({ sampleDodgeWorld with
          matchesMap := [(500, { sampleVoteState with voteStartTime := none })] },
        DodgeOutcome.beforeBansComplete) := by
  refine ⟨by decide, by decide, by decide, by decide⟩

/-! ## C9: the sweep evicts dodge bans by creation age, not by their own
expiry -/

/-- C9 (code defect): one cleanup run deletes a dodge-ban entry created at
t = 0 with expiry t = 7200000 (a two-hour admin ban) already at
t = 3700000, while the entry's own expiry has not passed; the cooldown and
match-state rules behave as specified (eviction strictly after the TTL,
retention at it, and the evicted match's vote-throttle flag removed with
it). -/
theorem cleanup_evicts_unexpired_ban :
    (cleanupSweep 3700000 [] [(7, ⟨7200000, 0⟩)] [] []).bans = [] ∧
    3700000 < 7200000 ∧
    (cleanupSweep 3600000 [] [(8, ⟨3600000, 0⟩)] [] []).bans = [(8, ⟨3600000, 0⟩)] ∧
    (cleanupSweep 3601001 [] [(8, ⟨3600000, 0⟩)] [] []).bans = [] ∧
    (cleanupSweep 3600000 [(9, ⟨0, 0⟩)] [] [] []).cooldowns = [(9, ⟨0, 0⟩)] ∧
    (cleanupSweep 3600001 [(9, ⟨0, 0⟩)] [] [] []).cooldowns = [] ∧
    (cleanupSweep 43200001 [] [] [(500, sampleVoteState)] [1]).matchesMap = [] ∧
    (cleanupSweep 43200001 [] [] [(500, sampleVoteState)] [1]).voteUpdateQueues = [] ∧
    (cleanupSweep 43200000 [] [] [(500, sampleVoteState)] [1]).matchesMap =
      [(500, sampleVoteState)] := by
  refine ⟨by decide, by decide, by decide, by decide, by decide, by decide, by decide,
    by decide, by decide⟩

/-! ## C10: drain-and-spawn lemmas -/

theorem mem_foldl_jsSetDelete {l : List UserId} {q : List UserId} {y : UserId} :
    y ∈ l.foldl jsSetDelete q ↔ y ∈ q ∧ y ∉ l := by
  induction l generalizing q with
  | nil => simp
  | cons a t ih =>
    simp only [List.foldl_cons, ih, mem_jsSetDelete, List.mem_cons]
    tauto

theorem selectCaptains_isSome (users : List Usr) :
    (selectCaptains users).isSome ↔ 2 ≤ users.length := by
  have hl := (perm_sortByPointsDesc users).length_eq
  unfold selectCaptains
  cases hs : sortByPointsDesc users with
  | nil =>
    rw [hs] at hl
    simp at hl
    simp [← hl]
  | cons b rest =>
    cases rest with
    | nil =>
      rw [hs] at hl
      simp at hl
      simp [← hl]
    | cons a rest2 =>
      rw [hs] at hl
      simp only [List.length_cons] at hl
      simp
      omega

/-! ## C10: match creation needs at least two persisted profile rows among
the drained six -/

/-- C10: at or above capacity the handler drains the first six members and
creates the channel unconditionally; a match state is installed exactly when
at least two of the drained participants have profile rows, and with fewer
the operation aborts after the drain and the channel creation, leaving the
six in no queue and no registered match. -/
theorem spawn_requires_two_profiles (q : List UserId) (users : List Usr) (now : Nat)
    (hlen : QUEUE_SIZE ≤ q.length) :
    (drainAndSpawn q users now).drained = q.take QUEUE_SIZE ∧
    (drainAndSpawn q users now).channelCreated = true ∧
    (∀ x ∈ q.take QUEUE_SIZE, x ∉ (drainAndSpawn q users now).queueAfter) ∧
    ((drainAndSpawn q users now).installed.isSome ↔
      2 ≤ (users.filter (fun u => u.discordId ∈ q.take QUEUE_SIZE)).length) ∧
    (2 ≤ (users.filter (fun u => u.discordId ∈ q.take QUEUE_SIZE)).length →
      ∀ capA capB,
        selectCaptains (users.filter (fun u => u.discordId ∈ q.take QUEUE_SIZE)) =
          some (capA, capB) →
        (drainAndSpawn q users now).installed =
          some (initState (q.take QUEUE_SIZE) capA capB now)) := by
  have hcond : QUEUE_SIZE ≤ q.length := hlen
  refine ⟨?_, ?_, ?_, ?_, ?_⟩
  · cases hsel : selectCaptains (users.filter (fun u => u.discordId ∈ q.take QUEUE_SIZE)) with
    | none => simp [drainAndSpawn, hcond, hsel]
    | some p => cases p with
      | mk capA capB => simp [drainAndSpawn, hcond, hsel]
  · cases hsel : selectCaptains (users.filter (fun u => u.discordId ∈ q.take QUEUE_SIZE)) with
    | none => simp [drainAndSpawn, hcond, hsel]
    | some p => cases p with
      | mk capA capB => simp [drainAndSpawn, hcond, hsel]
  · intro x hx
    have hqAfter : ∀ res : SpawnResult,
        res = drainAndSpawn q users now →
        res.queueAfter = (q.take QUEUE_SIZE).foldl jsSetDelete q := by
      intro res hres
      cases hsel : selectCaptains (users.filter (fun u => u.discordId ∈ q.take QUEUE_SIZE)) with
      | none => rw [hres]; simp [drainAndSpawn, hcond, hsel]
      | some p => cases p with
        | mk capA capB => rw [hres]; simp [drainAndSpawn, hcond, hsel]
    rw [hqAfter _ rfl]
    intro hmem
    exact (mem_foldl_jsSetDelete.mp hmem).2 hx
  · rw [← selectCaptains_isSome]
    cases hsel : selectCaptains (users.filter (fun u => u.discordId ∈ q.take QUEUE_SIZE)) with
    | none => simp [drainAndSpawn, hcond, hsel]
    | some p => cases p with
      | mk capA capB => simp [drainAndSpawn, hcond, hsel]
  · intro _ capA capB hsel
    simp [drainAndSpawn, hcond, hsel]

/-- Witness for C10: queue [1..6] with a single registered profile — the
six are drained and the channel is created but no match state is installed;
with two profiles the state is installed. -/
theorem spawn_requires_two_profiles_witness :
    (drainAndSpawn [1, 2, 3, 4, 5, 6] [⟨1, 1000, 0, 0⟩] 0).drained = [1, 2, 3, 4, 5, 6] ∧
    (drainAndSpawn [1, 2, 3, 4, 5, 6] [⟨1, 1000, 0, 0⟩] 0).channelCreated = true ∧
    (drainAndSpawn [1, 2, 3, 4, 5, 6] [⟨1, 1000, 0, 0⟩] 0).installed = none ∧
    (drainAndSpawn [1, 2, 3, 4, 5, 6] [⟨1, 1000, 0, 0⟩, ⟨2, 1200, 0, 0⟩] 0).installed =
      some (initState [1, 2, 3, 4, 5, 6] 1 2 0) := by
  have h1 := spawn_requires_two_profiles [1, 2, 3, 4, 5, 6] [⟨1, 1000, 0, 0⟩] 0 (by decide)
  have h2 := spawn_requires_two_profiles [1, 2, 3, 4, 5, 6]
    [⟨1, 1000, 0, 0⟩, ⟨2, 1200, 0, 0⟩] 0 (by decide)
  refine ⟨h1.1, h1.2.1, ?_, ?_⟩
  · have := h1.2.2.2.1
    cases hin : (drainAndSpawn [1, 2, 3, 4, 5, 6] [⟨1, 1000, 0, 0⟩] 0).installed with
    | none => rfl
    | some st =>
      exfalso
      have hiff := this
      rw [hin] at hiff
      have hle := hiff.mp rfl
      have hnot : ¬2 ≤ (([⟨1, 1000, 0, 0⟩] : List Usr).filter
          (fun u => u.discordId ∈ ([1, 2, 3, 4, 5, 6] : List UserId).take QUEUE_SIZE)).length := by
        decide
      exact hnot hle
  · exact h2.2.2.2.2 (by decide) 1 2 (by decide)

end BotRanked
